import Mathlib

/-!
Verification of the Codex rich-text editor example (site/examples/codex.js).

The file shallowly embeds the document model, the plugin-composition chain
and the command layer of the editor.  Definitions named after source
symbols are direct translations of the corresponding JavaScript.  Where a
definition models behavior of the slate library that the example calls
into (Transforms, Editor, Range, Point) or of an external dependency
(is-url, image-extensions, URL parsing), its doc comment says so and it
follows the written specification of that behavior.
-/

/-- Text content is modelled as a list of characters. -/
abbrev Txt := List Char

/-- Character-list test that the first argument is an initial segment of
the second, used by the URL classification models. -/
def startsWith : Txt → Txt → Bool
  | [], _ => true
  | _ :: _, [] => false
  | c :: p, d :: s => c == d && startsWith p s

/-- Modelled from the spec: the external is-url dependency, the
classification predicate "plain text is a URL" of the pattern-detection
insertion.  Modelled as: the text begins with an http or https scheme. -/
def isUrl (s : Txt) : Bool :=
  startsWith "http://".toList s || startsWith "https://".toList s

/-- Modelled from the spec: the pathname component produced by the
platform URL parser used in isImageUrl (codex.js line 548): everything
from the first slash after the scheme and host, up to a query or
fragment delimiter. -/
def pathnameOf (u : Txt) : Txt :=
  let afterScheme := (u.dropWhile (fun c => c != ':')).drop 3
  let path := afterScheme.dropWhile (fun c => c != '/')
  path.takeWhile (fun c => c != '?' && c != '#')

/-- Translation of `pathname.split('.').pop()` (codex.js line 548): the
segment of the pathname after its last dot, or the whole pathname when
it has no dot. -/
def extOf (p : Txt) : Txt :=
  (p.reverse.takeWhile (fun c => c != '.')).reverse

/-- Modelled from the spec: the external image-extensions dependency, as
a representative list of image file extensions. -/
def imageExtensions : List Txt :=
  (["png", "jpg", "jpeg", "gif", "webp", "bmp", "svg"].map String.toList)

/-- Translation of isImageUrl (codex.js lines 545-550): the text is a
URL and its pathname's final extension is an image extension. -/
def isImageUrl (u : Txt) : Bool :=
  isUrl u && imageExtensions.contains (extOf (pathnameOf u))

namespace Compose

/-- An element node, as far as void/inline classification is concerned:
classification in codex.js looks only at `element.type`. -/
structure Elem where
  type : String

/-- The two composable classification extension points of the editor. -/
structure SEditor where
  isVoid : Elem → Bool
  isInline : Elem → Bool

/-- Modelled from the spec: the base editor produced by
createEditor/withReact/withHistory classifies no element as void or
inline ("absence of any match falls back to not void / not inline"). -/
def baseEditor : SEditor :=
  { isVoid := fun _ => false, isInline := fun _ => false }

/-- Translation of withChecklists (codex.js lines 250-280) restricted to
the classification extension points: it overrides only deleteBackward,
leaving isVoid and isInline untouched. -/
def withChecklists (e : SEditor) : SEditor := e

/-- Translation of withImages.isVoid (codex.js lines 285-287). -/
def withImages (e : SEditor) : SEditor :=
  { e with isVoid := fun element =>
      if element.type == "image" then true else e.isVoid element }

/-- Translation of withLinks.isInline (codex.js lines 189-191). -/
def withLinks (e : SEditor) : SEditor :=
  { e with isInline := fun element =>
      if element.type == "link" then true else e.isInline element }

/-- Translation of withMathBlocks (codex.js lines 170-178). -/
def withMathBlocks (e : SEditor) : SEditor :=
  { e with isVoid := fun element =>
      if element.type == "math-block" then true else e.isVoid element }

/-- The composed editor of CodexExample (codex.js lines 66-74). -/
def codexEditor : SEditor :=
  withMathBlocks (withLinks (withImages (withChecklists baseEditor)))

/-- C1: in the composed editor, an element is void exactly when its type
is math-block or image, and inline exactly when its type is link; every
type no plugin claims is classified not void and not inline, and the
composed answer is the first non-default answer on the outer-to-inner
chain. -/
theorem codex_void_inline_classification (el : Elem) :
    codexEditor.isVoid el = (el.type == "math-block" || el.type == "image")
    ∧ codexEditor.isInline el = (el.type == "link") := by
  constructor
  · simp only [codexEditor, withMathBlocks, withLinks, withImages,
      withChecklists, baseEditor]
    cases h1 : el.type == "math-block" <;> cases h2 : el.type == "image" <;>
      simp [h1, h2]
  · simp only [codexEditor, withMathBlocks, withLinks, withImages,
      withChecklists, baseEditor]
    cases h : el.type == "link" <;> simp [h]

end Compose

namespace Marks

/-- The mark-relevant editor state: the effective mark set that
Editor.marks would report for the current selection, or none when there
is no applicable selection.  Mark attributes are named boolean
attributes, so a format may be bound to true, bound to false, or
absent. -/
structure MEditor where
  marks : Option (String → Option Bool)

/-- Translation of isMarkActive (codex.js lines 165-168):
`marks ? marks[format] === true : false`. -/
def isMarkActive (e : MEditor) (format : String) : Bool :=
  match e.marks with
  | some m =>
    match m format with
    | some true => true
    | _ => false
  | none => false

/-- Modelled from the spec: Editor.addMark binds the format to true in
the effective mark set; with no applicable selection it is a no-op. -/
def addMark (e : MEditor) (format : String) : MEditor :=
  match e.marks with
  | some m => ⟨some (fun g => if g = format then some true else m g)⟩
  | none => e

/-- Modelled from the spec: Editor.removeMark deletes the format's
binding from the effective mark set; with no applicable selection it is
a no-op. -/
def removeMark (e : MEditor) (format : String) : MEditor :=
  match e.marks with
  | some m => ⟨some (fun g => if g = format then none else m g)⟩
  | none => e

/-- Translation of toggleMark (codex.js lines 147-155). -/
def toggleMark (e : MEditor) (format : String) : MEditor :=
  if isMarkActive e format then removeMark e format else addMark e format

/-- A mark set binding bold to false: bold is inactive, but the binding
is part of the mark state. -/
def falseBoldMarks : String → Option Bool :=
  fun g => if g = "bold" then some false else none

/-- The editor state whose effective mark set is falseBoldMarks. -/
def cexMarkEditor : MEditor := ⟨some falseBoldMarks⟩

/-- C3 counterexample: toggleMark is not involutive on every editor
state.  Starting from a mark set binding bold to false, toggling bold
twice first binds it to true, then deletes the binding entirely, so the
original mark state is not restored. -/
theorem toggleMark_not_involutive_cex :
    toggleMark (toggleMark cexMarkEditor "bold") "bold" ≠ cexMarkEditor := by
  intro h
  have hL : (toggleMark (toggleMark cexMarkEditor "bold") "bold").marks.map
      (fun m => m "bold") = some none := rfl
  have hR : cexMarkEditor.marks.map (fun m => m "bold") = some (some false) := rfl
  have hv : (some none : Option (Option Bool)) = some (some false) := by
    calc (some none : Option (Option Bool))
        = (toggleMark (toggleMark cexMarkEditor "bold") "bold").marks.map
            (fun m => m "bold") := hL.symm
      _ = cexMarkEditor.marks.map (fun m => m "bold") := by rw [h]
      _ = some (some false) := hR
  simp at hv

/-- C3 amended: toggling a mark twice always restores the format's
active status, and restores the full mark state whenever the format is
absent from the effective mark set or bound to true (that is, whenever
it is not bound to a non-true value such as false). -/
theorem toggleMark_involutive_amended (e : MEditor) (format : String) :
    isMarkActive (toggleMark (toggleMark e format) format) format
      = isMarkActive e format
    ∧ ((∀ m, e.marks = some m → m format = none ∨ m format = some true) →
        toggleMark (toggleMark e format) format = e) := by
  obtain ⟨_ | m⟩ := e
  · constructor
    · simp [toggleMark, isMarkActive, addMark]
    · intro _
      simp [toggleMark, isMarkActive, addMark]
  · by_cases hmf : m format = some true
    · have h1 : isMarkActive ⟨some m⟩ format = true := by
        simp [isMarkActive, hmf]
      have step1 : toggleMark ⟨some m⟩ format
          = ⟨some (fun g => if g = format then none else m g)⟩ := by
        simp [toggleMark, h1, removeMark]
      have h2 : isMarkActive ⟨some (fun g => if g = format then none else m g)⟩
          format = false := by
        simp [isMarkActive]
      have step2 : toggleMark (toggleMark ⟨some m⟩ format) format
          = ⟨some (fun g => if g = format then some true
              else if g = format then none else m g)⟩ := by
        rw [step1]
        simp [toggleMark, h2, addMark]
      constructor
      · rw [step2, h1]
        simp [isMarkActive]
      · intro _
        rw [step2]
        refine congrArg (fun f => MEditor.mk (some f)) (funext fun g => ?_)
        by_cases hg : g = format
        · subst hg
          simp [hmf]
        · simp [hg]
    · have h1 : isMarkActive ⟨some m⟩ format = false := by
        cases hv : m format with
        | none => simp [isMarkActive, hv]
        | some b =>
          cases b
          · simp [isMarkActive, hv]
          · exact absurd hv hmf
      have step1 : toggleMark ⟨some m⟩ format
          = ⟨some (fun g => if g = format then some true else m g)⟩ := by
        simp [toggleMark, h1, addMark]
      have h2 : isMarkActive ⟨some (fun g => if g = format then some true else m g)⟩
          format = true := by
        simp [isMarkActive]
      have step2 : toggleMark (toggleMark ⟨some m⟩ format) format
          = ⟨some (fun g => if g = format then none
              else if g = format then some true else m g)⟩ := by
        rw [step1]
        simp [toggleMark, h2, removeMark]
      constructor
      · rw [step2, h1]
        simp [isMarkActive]
      · intro hh
        have hmn : m format = none := by
          rcases hh m rfl with h | h
          · exact h
          · exact absurd h hmf
        rw [step2]
        refine congrArg (fun f => MEditor.mk (some f)) (funext fun g => ?_)
        by_cases hg : g = format
        · subst hg
          simp [hmn]
        · simp [hg]

/-- A mark set binding bold to true. -/
def demoMarks : String → Option Bool :=
  fun g => if g = "bold" then some true else none

/-- The editor state whose effective mark set is demoMarks. -/
def demoMarkEditor : MEditor := ⟨some demoMarks⟩

/-- C3 amended witness: at a state with bold bound to true, the
hypothesis of the amended theorem holds and double toggling restores
the state. -/
theorem toggleMark_involutive_amended_witness :
    (∀ m, demoMarkEditor.marks = some m → m "bold" = none ∨ m "bold" = some true)
    ∧ toggleMark (toggleMark demoMarkEditor "bold") "bold" = demoMarkEditor :=
  ⟨fun m hm => by
      have hm' : some demoMarks = some m := hm
      have := Option.some.inj hm'
      subst this
      right
      simp [demoMarks],
    (toggleMark_involutive_amended demoMarkEditor "bold").2
      (fun m hm => by
        have hm' : some demoMarks = some m := hm
        have := Option.some.inj hm'
        subst this
        right
        simp [demoMarks])⟩

end Marks

namespace Blocks

/-- A document node: a text leaf or an element with a type tag and
children, the tree shape of the slate document model. -/
inductive BNode where
  | text (s : String)
  | elem (t : String) (children : List BNode)

/-- Translation of LIST_TYPES (codex.js line 60). -/
def LIST_TYPES : List String := ["numbered-list", "bulleted-list"]

/-- Whether a node is an element of a list-container type. -/
def isListElem : BNode → Bool
  | .elem t _ => LIST_TYPES.contains t
  | .text _ => false

mutual

/-- Whether a node's subtree contains an element of the given type;
models the existence test of Editor.nodes with match n.type === format
over the modelled scope. -/
def containsTypeN (f : String) : BNode → Bool
  | .text _ => false
  | .elem t cs => t == f || containsTypeL f cs

/-- containsTypeN over a forest. -/
def containsTypeL (f : String) : List BNode → Bool
  | [] => false
  | n :: r => containsTypeN f n || containsTypeL f r

end

mutual

/-- Whether a node's subtree contains any list-container element. -/
def hasListN : BNode → Bool
  | .text _ => false
  | .elem t cs => LIST_TYPES.contains t || hasListL cs

/-- hasListN over a forest. -/
def hasListL : List BNode → Bool
  | [] => false
  | n :: r => hasListN n || hasListL r

end

mutual

/-- Modelled from the spec: Transforms.unwrapNodes with match
n => LIST_TYPES.includes(n.type) and split (codex.js lines 132-135),
with the selection covering the modelled scope: every matched
list-container element is removed and its children are lifted to the
parent. -/
def unwrapListN : BNode → List BNode
  | .text s => [.text s]
  | .elem t cs =>
    if LIST_TYPES.contains t then unwrapListL cs
    else [.elem t (unwrapListL cs)]

/-- unwrapListN over a forest. -/
def unwrapListL : List BNode → List BNode
  | [] => []
  | n :: r => unwrapListN n ++ unwrapListL r

end

/-- Whether a forest has a direct element member. -/
def hasElemChild : List BNode → Bool
  | [] => false
  | .elem _ _ :: _ => true
  | .text _ :: r => hasElemChild r

mutual

/-- Modelled from the spec: Transforms.setNodes with a type property
(codex.js lines 137-139), with the selection covering the modelled
scope: the type replacement applies to the matched lowest block nodes,
the elements with no element children. -/
def setLeafTypeN (f : String) : BNode → BNode
  | .text s => .text s
  | .elem t cs =>
    if hasElemChild cs then .elem t (setLeafTypeL f cs) else .elem f cs

/-- setLeafTypeN over a forest. -/
def setLeafTypeL (f : String) : List BNode → List BNode
  | [] => []
  | n :: r => setLeafTypeN f n :: setLeafTypeL f r

end

mutual

/-- No element of a list-container type has a direct child of a
list-container type anywhere in the node's subtree. -/
def noNestedN : BNode → Bool
  | .text _ => true
  | .elem t cs =>
    (!(LIST_TYPES.contains t) || !(cs.any isListElem)) && noNestedL cs

/-- noNestedN over a forest. -/
def noNestedL : List BNode → Bool
  | [] => true
  | n :: r => noNestedN n && noNestedL r

end

/-- Translation of isBlockActive (codex.js lines 157-163): some node of
that exact type exists in scope. -/
def isBlockActive (doc : List BNode) (format : String) : Bool :=
  containsTypeL format doc

/-- Translation of toggleBlock (codex.js lines 128-145) over the
modelled scope: unconditionally unwrap list-container ancestors (with
split), then set matched node types to paragraph (turning off),
list-item (turning a list type on) or the format itself, and finally,
when turning a list type on, wrap everything in a single new
list-container element of the target type. -/
def toggleBlock (doc : List BNode) (format : String) : List BNode :=
  let isActive := isBlockActive doc format
  let isList := LIST_TYPES.contains format
  let d1 := unwrapListL doc
  let d2 := setLeafTypeL
    (if isActive then "paragraph" else if isList then "list-item" else format) d1
  if !isActive && isList then [.elem format d2] else d2

theorem hasListL_append (a b : List BNode) :
    hasListL (a ++ b) = (hasListL a || hasListL b) := by
  induction a with
  | nil => simp [hasListL]
  | cons n r ih => simp [hasListL, ih, Bool.or_assoc]

mutual

theorem unwrapListN_noList (n : BNode) : hasListL (unwrapListN n) = false := by
  cases n with
  | text s => simp [unwrapListN, hasListL, hasListN]
  | elem t cs =>
    by_cases ht : t ∈ LIST_TYPES
    · simpa [unwrapListN, ht] using unwrapListL_noList cs
    · simp [unwrapListN, ht, hasListL, hasListN, unwrapListL_noList cs]

theorem unwrapListL_noList (l : List BNode) : hasListL (unwrapListL l) = false := by
  cases l with
  | nil => simp [unwrapListL, hasListL]
  | cons n r =>
    simp [unwrapListL, hasListL_append, unwrapListN_noList n, unwrapListL_noList r]

end

mutual

theorem setLeafTypeN_noList (f : String) (hf : f ∉ LIST_TYPES)
    (n : BNode) (h : hasListN n = false) :
    hasListN (setLeafTypeN f n) = false := by
  cases n with
  | text s => simpa [setLeafTypeN] using h
  | elem t cs =>
    simp [hasListN] at h
    by_cases hc : hasElemChild cs
    · simp [setLeafTypeN, hc, hasListN, h.1,
        setLeafTypeL_noList f hf cs h.2]
    · simp [setLeafTypeN, hc, hasListN, hf, h.2]

theorem setLeafTypeL_noList (f : String) (hf : f ∉ LIST_TYPES)
    (l : List BNode) (h : hasListL l = false) :
    hasListL (setLeafTypeL f l) = false := by
  cases l with
  | nil => simp [setLeafTypeL, hasListL]
  | cons n r =>
    simp [hasListL] at h
    simp [setLeafTypeL, hasListL, setLeafTypeN_noList f hf n h.1,
      setLeafTypeL_noList f hf r h.2]

end

theorem isListElem_false_of_noList (n : BNode) (h : hasListN n = false) :
    isListElem n = false := by
  cases n with
  | text s => simp [isListElem]
  | elem t cs =>
    simp [hasListN] at h
    simp [isListElem, h.1]

mutual

theorem noNestedN_of_noList (n : BNode) (h : hasListN n = false) :
    noNestedN n = true := by
  cases n with
  | text s => simp [noNestedN]
  | elem t cs =>
    simp [hasListN] at h
    simp [noNestedN, h.1, noNestedL_of_noList cs h.2]

theorem noNestedL_of_noList (l : List BNode) (h : hasListL l = false) :
    noNestedL l = true := by
  cases l with
  | nil => simp [noNestedL]
  | cons n r =>
    simp [hasListL] at h
    simp [noNestedL, noNestedN_of_noList n h.1, noNestedL_of_noList r h.2]

end

theorem any_isListElem_false_of_noList (l : List BNode) (h : hasListL l = false) :
    l.any isListElem = false := by
  induction l with
  | nil => simp
  | cons n r ih =>
    simp [hasListL] at h
    simp [isListElem_false_of_noList n h.1, ih h.2]

theorem toggleBlock_turn_list_on (doc : List BNode) (format : String)
    (h : format ∈ LIST_TYPES) (hA : isBlockActive doc format = false) :
    toggleBlock doc format
      = [.elem format (setLeafTypeL "list-item" (unwrapListL doc))] := by
  simp [toggleBlock, hA, h]

theorem toggleBlock_turn_off (doc : List BNode) (format : String)
    (hA : isBlockActive doc format = true) :
    toggleBlock doc format = setLeafTypeL "paragraph" (unwrapListL doc) := by
  simp [toggleBlock, hA]

theorem toggleBlock_turn_nonlist_on (doc : List BNode) (format : String)
    (h : format ∉ LIST_TYPES) (hA : isBlockActive doc format = false) :
    toggleBlock doc format = setLeafTypeL format (unwrapListL doc) := by
  simp [toggleBlock, hA, h]

/-- C2: toggling a list-container format never leaves a list-container
element with a direct list-container child anywhere in scope; moreover,
turning the list type on wraps the retyped content in one single new
list-container element of the target type whose subtree contains no
other list container. -/
theorem toggleBlock_list_no_nesting (doc : List BNode) (format : String)
    (h : LIST_TYPES.contains format = true) :
    noNestedL (toggleBlock doc format) = true
    ∧ (isBlockActive doc format = false →
        ∃ cs, toggleBlock doc format = [.elem format cs]
          ∧ hasListL cs = false) := by
  have h' : format ∈ LIST_TYPES := by simpa using h
  cases hA : isBlockActive doc format with
  | false =>
    have hpl : "list-item" ∉ LIST_TYPES := by decide
    have hd2 : hasListL (setLeafTypeL "list-item" (unwrapListL doc)) = false :=
      setLeafTypeL_noList _ hpl _ (unwrapListL_noList doc)
    rw [toggleBlock_turn_list_on doc format h' hA]
    constructor
    · simp only [noNestedL, noNestedN, Bool.and_true]
      simp [h', any_isListElem_false_of_noList _ hd2, noNestedL_of_noList _ hd2]
    · intro _
      exact ⟨setLeafTypeL "list-item" (unwrapListL doc), rfl, hd2⟩
  | true =>
    have hpl : "paragraph" ∉ LIST_TYPES := by decide
    have hd2 : hasListL (setLeafTypeL "paragraph" (unwrapListL doc)) = false :=
      setLeafTypeL_noList _ hpl _ (unwrapListL_noList doc)
    rw [toggleBlock_turn_off doc format hA]
    constructor
    · exact noNestedL_of_noList _ hd2
    · intro hcontra
      exact absurd hcontra (by decide)

/-- A document with one bulleted list around a list item, plus a
paragraph. -/
def listDemoDoc : List BNode :=
  [.elem "bulleted-list" [.elem "list-item" [.text "a"]],
   .elem "paragraph" [.text "b"]]

/-- C2 witness: toggling numbered-list on the demo document satisfies
the hypotheses and yields no nested list containers. -/
theorem toggleBlock_list_no_nesting_witness :
    LIST_TYPES.contains "numbered-list" = true
    ∧ (noNestedL (toggleBlock listDemoDoc "numbered-list") = true
       ∧ (isBlockActive listDemoDoc "numbered-list" = false →
           ∃ cs, toggleBlock listDemoDoc "numbered-list" = [.elem "numbered-list" cs]
             ∧ hasListL cs = false)) :=
  ⟨by decide, toggleBlock_list_no_nesting listDemoDoc "numbered-list" (by decide)⟩

/-- C10: toggleBlock unwraps list containers for every format, not only
list formats: after toggling any non-list format, no list-container
element remains anywhere in scope. -/
theorem toggleBlock_nonlist_removes_lists (doc : List BNode) (format : String)
    (h : LIST_TYPES.contains format = false) :
    hasListL (toggleBlock doc format) = false := by
  have h' : format ∉ LIST_TYPES := by simpa using h
  have hpl : "paragraph" ∉ LIST_TYPES := by decide
  cases hA : isBlockActive doc format with
  | false =>
    rw [toggleBlock_turn_nonlist_on doc format h' hA]
    exact setLeafTypeL_noList _ h' _ (unwrapListL_noList doc)
  | true =>
    rw [toggleBlock_turn_off doc format hA]
    exact setLeafTypeL_noList _ hpl _ (unwrapListL_noList doc)

/-- C10 witness: toggling heading-one on content inside a bulleted list
removes the list wrapper. -/
theorem toggleBlock_nonlist_removes_lists_witness :
    LIST_TYPES.contains "heading-one" = false
    ∧ hasListL (toggleBlock listDemoDoc "heading-one") = false :=
  ⟨by decide, toggleBlock_nonlist_removes_lists listDemoDoc "heading-one" (by decide)⟩

end Blocks

namespace Checklist

/-- A position inside the document: the index of a top-level block and a
character offset inside its text. -/
structure Point where
  idx : Nat
  offset : Nat
deriving DecidableEq

/-- A selection range with anchor and focus points; collapsed when they
are equal (slate Range.isCollapsed). -/
structure Range where
  anchor : Point
  focus : Point
deriving DecidableEq

/-- A top-level block of the modelled document: a type tag and its text
content. -/
structure Block where
  type : String
  text : String
deriving DecidableEq

/-- The deleteBackward-relevant editor state: the blocks and the current
selection. -/
structure ChState where
  blocks : List Block
  selection : Option Range
deriving DecidableEq

/-- Modelled from the spec: the first match of Editor.nodes with match
n.type === 'check-list-item' at the current collapsed selection
(codex.js lines 257-259): the block containing the selection anchor,
when its type is check-list-item. -/
def firstChecklistMatch (e : ChState) (sel : Range) : Option Nat :=
  match e.blocks[sel.anchor.idx]? with
  | some b => if b.type == "check-list-item" then some sel.anchor.idx else none
  | none => none

/-- Modelled from the spec: Transforms.setNodes with type paragraph and
match n.type === 'check-list-item' at the selection (codex.js lines
266-270): retype the block at the given index when it is a
check-list-item. -/
def retypeChecklistAt : Nat → List Block → List Block
  | _, [] => []
  | 0, b :: r =>
    (if b.type == "check-list-item" then { b with type := "paragraph" } else b) :: r
  | n + 1, b :: r => b :: retypeChecklistAt n r

/-- The state after the checklist plugin's setNodes call: the block at
the selection anchor is converted to a paragraph when it is a
check-list-item. -/
def convertChecklist (e : ChState) : ChState :=
  match e.selection with
  | some sel => { e with blocks := retypeChecklistAt sel.anchor.idx e.blocks }
  | none => e

/-- Translation of withChecklists.deleteBackward (codex.js lines
250-280): with a collapsed selection whose anchor equals the start
point of the first check-list-item match, convert that node to a
paragraph and return; otherwise delegate to the captured previous
deleteBackward.  Editor.start of the block's path is the point at its
index with offset 0. -/
def withChecklistsDeleteBackward (innerDelete : ChState → ChState)
    (e : ChState) : ChState :=
  match e.selection with
  | some sel =>
    if sel.anchor = sel.focus then
      match firstChecklistMatch e sel with
      | some path =>
        if sel.anchor = ⟨path, 0⟩ then convertChecklist e
        else innerDelete e
      | none => innerDelete e
    else innerDelete e
  | none => innerDelete e

/-- The interception condition of the checklist plugin, flattened: a
collapsed selection sitting at offset 0 of a check-list-item block. -/
def interceptAtChecklistStart (e : ChState) : Bool :=
  match e.selection with
  | some sel =>
    sel.anchor == sel.focus &&
      (match e.blocks[sel.anchor.idx]? with
       | some b => b.type == "check-list-item" && sel.anchor.offset == 0
       | none => false)
  | none => false

theorem retypeChecklistAt_text (i : Nat) (l : List Block) :
    (retypeChecklistAt i l).map Block.text = l.map Block.text := by
  induction l generalizing i with
  | nil => cases i <;> simp [retypeChecklistAt]
  | cons b r ih =>
    cases i with
    | zero =>
      by_cases hb : b.type == "check-list-item" <;>
        simp [retypeChecklistAt, hb]
    | succ n => simp [retypeChecklistAt, ih]

theorem retypeChecklistAt_get (i : Nat) (l : List Block) :
    (retypeChecklistAt i l)[i]? = l[i]?.map
      (fun b => if b.type == "check-list-item"
        then { b with type := "paragraph" } else b) := by
  induction l generalizing i with
  | nil => cases i <;> simp [retypeChecklistAt]
  | cons b r ih =>
    cases i with
    | zero => simp [retypeChecklistAt]
    | succ n => simpa [retypeChecklistAt] using ih n

/-- C4: deleteBackward with a collapsed selection at the very start of a
check-list-item converts that node to a paragraph and returns without
invoking the captured default deletion, so the text of every block (in
particular the preceding one) is unchanged; in every other selection
state it delegates to the captured default behavior. -/
theorem checklists_deleteBackward_correct (innerDelete : ChState → ChState)
    (e : ChState) :
    withChecklistsDeleteBackward innerDelete e
      = (if interceptAtChecklistStart e then convertChecklist e else innerDelete e)
    ∧ (convertChecklist e).blocks.map Block.text = e.blocks.map Block.text
    ∧ (interceptAtChecklistStart e = true →
        ∃ sel b, e.selection = some sel
          ∧ e.blocks[sel.anchor.idx]? = some b
          ∧ b.type = "check-list-item"
          ∧ (convertChecklist e).blocks[sel.anchor.idx]?
              = some { b with type := "paragraph" }) := by
  refine ⟨?_, ?_, ?_⟩
  · cases hs : e.selection with
    | none => simp [withChecklistsDeleteBackward, interceptAtChecklistStart, hs]
    | some sel =>
      obtain ⟨a, f⟩ := sel
      by_cases hc : a = f
      case neg =>
        have hI : interceptAtChecklistStart e = false := by
          simp [interceptAtChecklistStart, hs, hc]
        simp [withChecklistsDeleteBackward, hs, hc, hI]
      case pos =>
      subst hc
      cases hb : e.blocks[a.idx]? with
      | none =>
        have hM : firstChecklistMatch e ⟨a, a⟩ = none := by
          simp [firstChecklistMatch, hb]
        have hI : interceptAtChecklistStart e = false := by
          simp [interceptAtChecklistStart, hs, hb]
        simp [withChecklistsDeleteBackward, hs, hM, hI]
      | some b =>
        by_cases ht : b.type == "check-list-item"
        case neg =>
          have hM : firstChecklistMatch e ⟨a, a⟩ = none := by
            simp only [firstChecklistMatch, hb]
            simp [ht]
          have hI : interceptAtChecklistStart e = false := by
            simp only [interceptAtChecklistStart, hs, hb]
            simp [ht]
          simp [withChecklistsDeleteBackward, hs, hM, hI]
        case pos =>
        have hM : firstChecklistMatch e ⟨a, a⟩ = some a.idx := by
          simp only [firstChecklistMatch, hb]
          simp [ht]
        by_cases ho : a.offset = 0
        case pos =>
          have hpt : a = ⟨a.idx, 0⟩ := by rw [← ho]
          have hpt' : (a = ⟨a.idx, 0⟩) ↔ True := iff_of_true hpt trivial
          have hI : interceptAtChecklistStart e = true := by
            simp only [interceptAtChecklistStart, hs, hb]
            simp [ht, ho]
          simp [withChecklistsDeleteBackward, hs, hM, hI, hpt']
        case neg =>
          have hpt : ¬(a = ⟨a.idx, 0⟩) := by
            intro hh
            exact ho (by rw [hh])
          have hI : interceptAtChecklistStart e = false := by
            simp only [interceptAtChecklistStart, hs, hb]
            simp [ho]
          simp [withChecklistsDeleteBackward, hs, hM, hI, hpt]
  · cases hs : e.selection with
    | none => simp [convertChecklist, hs]
    | some sel => simp [convertChecklist, hs, retypeChecklistAt_text]
  · intro hi
    cases hs : e.selection with
    | none => simp [interceptAtChecklistStart, hs] at hi
    | some sel =>
      simp only [interceptAtChecklistStart, hs] at hi
      cases hb : e.blocks[sel.anchor.idx]? with
      | none => simp [hb] at hi
      | some b =>
        simp only [hb, Bool.and_eq_true, beq_iff_eq] at hi
        refine ⟨sel, b, rfl, hb, hi.2.1, ?_⟩
        have hg := retypeChecklistAt_get sel.anchor.idx e.blocks
        have hcv : convertChecklist e
            = { e with blocks := retypeChecklistAt sel.anchor.idx e.blocks } := by
          simp [convertChecklist, hs]
        rw [hcv]
        simp [hg, hb, hi.2.1]

/-- A document with a paragraph followed by a check-list-item, the
caret collapsed at the very start of the check-list-item. -/
def checklistDemo : ChState :=
  { blocks := [⟨"paragraph", "hi"⟩, ⟨"check-list-item", "task"⟩],
    selection := some ⟨⟨1, 0⟩, ⟨1, 0⟩⟩ }

/-- C4 witness: the interception condition holds on the demo state and
the theorem's conclusions follow there. -/
theorem checklists_deleteBackward_correct_witness :
    interceptAtChecklistStart checklistDemo = true
    ∧ (withChecklistsDeleteBackward id checklistDemo
        = (if interceptAtChecklistStart checklistDemo
            then convertChecklist checklistDemo else id checklistDemo)
       ∧ (convertChecklist checklistDemo).blocks.map Block.text
          = checklistDemo.blocks.map Block.text
       ∧ (interceptAtChecklistStart checklistDemo = true →
           ∃ sel b, checklistDemo.selection = some sel
             ∧ checklistDemo.blocks[sel.anchor.idx]? = some b
             ∧ b.type = "check-list-item"
             ∧ (convertChecklist checklistDemo).blocks[sel.anchor.idx]?
                 = some { b with type := "paragraph" })) :=
  ⟨by decide, checklists_deleteBackward_correct id checklistDemo⟩

end Checklist

namespace Paste

/-- An attached file of a data payload, carrying its media type string
(e.g. "image/png"). -/
structure FileBlob where
  mimeType : Txt
deriving DecidableEq

/-- An insertData payload: the text/plain content and the attached
files, the two parts of a pasted or dropped payload that codex.js
inspects. -/
structure DataPayload where
  plain : Txt
  files : List FileBlob
deriving DecidableEq

/-- The observable outcome of an insertData call, as the sequence of
actions the plugin chain performs: wrap a link, insert an image from a
URL, schedule an asynchronous read of an attached image file (whose
callback inserts the image), or fall through to the default
pass-through insertion of the payload. -/
inductive Effect where
  | wrapLinkE (url : Txt)
  | insertImageE (url : Txt)
  | readFileE (mime : Txt)
  | passThroughE (d : DataPayload)
deriving DecidableEq

/-- Translation of `file.type.split('/')` taking the first component
(codex.js line 296): the media type up to the first slash. -/
def mimeTop (t : Txt) : Txt := t.takeWhile (fun c => c != '/')

/-- Modelled from the spec: the default insertData pass-through
insertion of the payload. -/
def baseInsertData (d : DataPayload) : List Effect := [.passThroughE d]

/-- Translation of withImages.insertData (codex.js lines 289-312): with
attached files, schedule a read for each file whose media type starts
with image (non-image files are skipped); otherwise insert an image for
an image-URL text; otherwise delegate to the captured insertData. -/
def imagesInsertData (innerInsert : DataPayload → List Effect)
    (d : DataPayload) : List Effect :=
  if d.files.length > 0 then
    (d.files.filter (fun f => mimeTop f.mimeType == "image".toList)).map
      (fun f => .readFileE f.mimeType)
  else if isImageUrl d.plain then [.insertImageE d.plain]
  else innerInsert d

/-- Translation of withLinks.insertData (codex.js lines 201-209): wrap
a link when the text/plain content is a nonempty URL, else delegate to
the captured insertData. -/
def linksInsertData (innerInsert : DataPayload → List Effect)
    (d : DataPayload) : List Effect :=
  if !d.plain.isEmpty && isUrl d.plain then [.wrapLinkE d.plain]
  else innerInsert d

/-- The composed insertData of the editor of codex.js lines 66-74:
withLinks is applied outside withImages, so its override runs first and
delegates inward. -/
def composedInsertData : DataPayload → List Effect :=
  linksInsertData (imagesInsertData baseInsertData)

/-- A payload with non-URL text and one attached non-image file. -/
def pdfPayload : DataPayload :=
  { plain := "hello".toList, files := [⟨"application/pdf".toList⟩] }

/-- C7 counterexample: a payload whose classification predicates all
fail (text is not a URL, the attached file has a non-image media type,
text is not an image URL) is not passed through to the default
insertion: the files branch consumes it and produces no action at all,
so the payload is lost. -/
theorem insertData_files_dropped_cex :
    (isUrl pdfPayload.plain = false
      ∧ pdfPayload.files.all (fun f => !(mimeTop f.mimeType == "image".toList)) = true
      ∧ isImageUrl pdfPayload.plain = false)
    ∧ composedInsertData pdfPayload ≠ [.passThroughE pdfPayload]
    ∧ composedInsertData pdfPayload = [] := by decide

/-- C7 amended: for a payload with no attached files, failure of the
link and image-URL classification predicates makes the composed
insertData fall through to the default pass-through insertion of the
payload, so classification failure on a files-free payload never loses
the payload; with attached files the images plugin consumes the payload
without delegating. -/
theorem insertData_fallthrough_amended (d : DataPayload)
    (hf : d.files = [])
    (hl : (!d.plain.isEmpty && isUrl d.plain) = false)
    (hi : isImageUrl d.plain = false) :
    composedInsertData d = [.passThroughE d] := by
  simp [composedInsertData, linksInsertData, imagesInsertData, baseInsertData,
    hf, hl, hi]

/-- A files-free payload with plain non-URL text. -/
def helloPayload : DataPayload := { plain := "hello".toList, files := [] }

/-- C7 amended witness: the hello payload satisfies the hypotheses and
is passed through unchanged. -/
theorem insertData_fallthrough_amended_witness :
    helloPayload.files = []
    ∧ (!helloPayload.plain.isEmpty && isUrl helloPayload.plain) = false
    ∧ isImageUrl helloPayload.plain = false
    ∧ composedInsertData helloPayload = [.passThroughE helloPayload] :=
  ⟨rfl, by decide, by decide,
    insertData_fallthrough_amended helloPayload rfl (by decide) (by decide)⟩

/-- C9: when the payload's text/plain content is a nonempty URL, the
composed insertData wraps a link and performs no image action: the
outer links plugin claims the payload before the images plugin's
image-URL branch can run. -/
theorem insertData_url_becomes_link (d : DataPayload)
    (h : (!d.plain.isEmpty && isUrl d.plain) = true) :
    composedInsertData d = [.wrapLinkE d.plain]
    ∧ (∀ u, Effect.insertImageE u ∉ composedInsertData d)
    ∧ (∀ m, Effect.readFileE m ∉ composedInsertData d) := by
  have hc : composedInsertData d = [.wrapLinkE d.plain] := by
    simp [composedInsertData, linksInsertData, h]
  refine ⟨hc, ?_, ?_⟩
  · intro u hu
    rw [hc] at hu
    simp at hu
  · intro m hm
    rw [hc] at hm
    simp at hm

/-- A payload pasting an image URL as plain text. -/
def imageUrlPayload : DataPayload :=
  { plain := "https://example.com/photo.png".toList, files := [] }

/-- C9 witness: a pasted image URL (its pathname extension is an image
extension, so isImageUrl holds) still becomes a link, and no image
action occurs. -/
theorem insertData_url_becomes_link_witness :
    (!imageUrlPayload.plain.isEmpty && isUrl imageUrlPayload.plain) = true
    ∧ isImageUrl imageUrlPayload.plain = true
    ∧ (composedInsertData imageUrlPayload = [.wrapLinkE imageUrlPayload.plain]
       ∧ (∀ u, Effect.insertImageE u ∉ composedInsertData imageUrlPayload)
       ∧ (∀ m, Effect.readFileE m ∉ composedInsertData imageUrlPayload)) :=
  ⟨by decide, by decide, insertData_url_becomes_link imageUrlPayload (by decide)⟩

end Paste

namespace Links

/-- An inline node of a paragraph: a text run, or a link element with a
url attribute and text-node children. -/
inductive Inline where
  | str (s : Txt)
  | lnk (url : Txt) (children : List Txt)
deriving DecidableEq

/-- The text content of an inline node. -/
def Inline.text : Inline → Txt
  | .str s => s
  | .lnk _ cs => cs.flatten

/-- The text content of a sequence of inline nodes. -/
def textOf (ps : List Inline) : Txt := (ps.map Inline.text).flatten

/-- The link-relevant editor state: one paragraph of inline nodes and a
selection given as anchor and focus character offsets into its text
(collapsed when they coincide, slate Range.isCollapsed). -/
structure LState where
  para : List Inline
  selection : Option (Nat × Nat)
deriving DecidableEq

/-- Whether the node span from p of length l meets the selection span
from a to b (closed intervals, as path overlap in Editor.nodes). -/
def spanHits (a b p l : Nat) : Bool := decide (p ≤ b) && decide (a ≤ p + l)

/-- The urls of the link nodes whose span meets the span from a to b,
walking the nodes from base offset pos; models the matches of
Editor.nodes with match n.type === 'link' at the selection. -/
def overlapLinksAux (a b : Nat) : Nat → List Inline → List Txt
  | _, [] => []
  | pos, .str s :: r => overlapLinksAux a b (pos + s.length) r
  | pos, .lnk u cs :: r =>
    (if spanHits a b pos cs.flatten.length then [u] else [])
      ++ overlapLinksAux a b (pos + cs.flatten.length) r

/-- overlapLinksAux from base offset 0. -/
def overlapLinks (a b : Nat) (ps : List Inline) : List Txt :=
  overlapLinksAux a b 0 ps

/-- Modelled from the spec: Transforms.unwrapNodes with match n.type ===
'link' at the selection (codex.js lines 225-227): every link node whose
span meets the selection is removed and its text children are lifted to
the parent. -/
def unwrapAux (a b : Nat) : Nat → List Inline → List Inline
  | _, [] => []
  | pos, .str s :: r => .str s :: unwrapAux a b (pos + s.length) r
  | pos, .lnk u cs :: r =>
    (if spanHits a b pos cs.flatten.length then cs.map Inline.str
     else [.lnk u cs])
      ++ unwrapAux a b (pos + cs.flatten.length) r

/-- Modelled from the spec: splitting a sequence of text nodes at a
character offset, as slate splitNodes does at a point inside a text. -/
def splitTxts : Nat → List Txt → List Txt × List Txt
  | _, [] => ([], [])
  | k, s :: r =>
    if k = 0 then ([], s :: r)
    else if k < s.length then ([s.take k], s.drop k :: r)
    else if k = s.length then ([s], r)
    else
      let p := splitTxts (k - s.length) r
      (s :: p.1, p.2)

/-- Modelled from the spec: splitting a sequence of inline nodes at a
character offset (the split part of wrapNodes with split): a node
interior to the offset is divided in two, nodes at an edge are not
touched. -/
def splitInl : Nat → List Inline → List Inline × List Inline
  | _, [] => ([], [])
  | k, n :: r =>
    if k = 0 then ([], n :: r)
    else if k < n.text.length then
      match n with
      | .str s => ([.str (s.take k)], .str (s.drop k) :: r)
      | .lnk u cs =>
        ([.lnk u (splitTxts k cs).1], .lnk u (splitTxts k cs).2 :: r)
    else if k = n.text.length then ([n], r)
    else
      let p := splitInl (k - n.text.length) r
      (n :: p.1, p.2)

@[simp]
theorem textOf_nil : textOf [] = [] := rfl

@[simp]
theorem textOf_cons (n : Inline) (r : List Inline) :
    textOf (n :: r) = n.text ++ textOf r := by
  simp [textOf]

@[simp]
theorem textOf_append (u v : List Inline) :
    textOf (u ++ v) = textOf u ++ textOf v := by
  simp [textOf]

@[simp]
theorem textOf_strs (cs : List Txt) :
    textOf (cs.map Inline.str) = cs.flatten := by
  induction cs with
  | nil => rfl
  | cons s r ih => simp [Inline.text, ih]

theorem splitTxts_flatten (cs : List Txt) :
    ∀ k, (splitTxts k cs).1.flatten = cs.flatten.take k
      ∧ (splitTxts k cs).2.flatten = cs.flatten.drop k := by
  induction cs with
  | nil => intro k; simp [splitTxts]
  | cons s r ih =>
    intro k
    by_cases h0 : k = 0
    · simp [splitTxts, h0]
    by_cases h1 : k < s.length
    · have hk : k - s.length = 0 := by omega
      simp [splitTxts, h0, h1, List.take_append_eq_append_take,
        List.drop_append_eq_append_drop, hk]
    by_cases h2 : k = s.length
    · subst h2
      have hne : s ≠ [] := by
        intro hh
        subst hh
        simp at h0
      simp [splitTxts, hne, List.take_append_eq_append_take,
        List.drop_append_eq_append_drop]
    · have hle : s.length ≤ k := by omega
      have := ih (k - s.length)
      simp [splitTxts, h0, h1, h2, this.1, this.2,
        List.take_append_eq_append_take, List.drop_append_eq_append_drop,
        List.take_of_length_le hle, List.drop_of_length_le hle]

theorem splitInl_textOf (ps : List Inline) :
    ∀ k, textOf (splitInl k ps).1 = (textOf ps).take k
      ∧ textOf (splitInl k ps).2 = (textOf ps).drop k := by
  induction ps with
  | nil => intro k; simp [splitInl]
  | cons n r ih =>
    intro k
    by_cases h0 : k = 0
    · simp [splitInl, h0]
    by_cases h1 : k < n.text.length
    · cases n with
      | str s =>
        have h1' : k < s.length := by simpa [Inline.text] using h1
        have hk : k - s.length = 0 := by omega
        simp [splitInl, h0, h1', Inline.text, List.take_append_eq_append_take,
          List.drop_append_eq_append_drop, hk]
      | lnk u cs =>
        have hs := splitTxts_flatten cs k
        have hsum : cs.flatten.length = (cs.map List.length).sum :=
          List.length_flatten cs
        have h1' : k < (cs.map List.length).sum := by
          rw [← hsum]
          simpa [Inline.text] using h1
        have hk : k - (cs.map List.length).sum = 0 := by omega
        simp [splitInl, h0, h1', Inline.text, hs.1, hs.2,
          List.take_append_eq_append_take, List.drop_append_eq_append_drop, hk]
    by_cases h2 : k = n.text.length
    · subst h2
      simp [splitInl, h0, h1]
    · have hle : n.text.length ≤ k := by omega
      have := ih (k - n.text.length)
      simp [splitInl, h0, h1, h2, this.1, this.2,
        List.take_append_eq_append_take, List.drop_append_eq_append_drop,
        List.take_of_length_le hle, List.drop_of_length_le hle]

end Links

namespace Links

theorem spanHits_eq_false (a b p l : Nat) :
    spanHits a b p l = false ↔ (b < p ∨ p + l < a) := by
  simp [spanHits]
  omega

theorem overlapLinksAux_append (a b : Nat) (u v : List Inline) :
    ∀ pos, overlapLinksAux a b pos (u ++ v)
      = overlapLinksAux a b pos u
        ++ overlapLinksAux a b (pos + (textOf u).length) v := by
  induction u with
  | nil => intro pos; simp [overlapLinksAux]
  | cons n u ih =>
    intro pos
    cases n with
    | str s =>
      simp [overlapLinksAux, ih, Inline.text, Nat.add_assoc]
    | lnk w cs =>
      simp [overlapLinksAux, ih, Inline.text, Nat.add_assoc, List.append_assoc]

theorem overlapLinksAux_strs (a b : Nat) (cs : List Txt) :
    ∀ pos, overlapLinksAux a b pos (cs.map Inline.str) = [] := by
  induction cs with
  | nil => intro pos; simp [overlapLinksAux]
  | cons s r ih => intro pos; simp [overlapLinksAux, ih]

theorem unwrapAux_textOf (a b : Nat) (ps : List Inline) :
    ∀ pos, textOf (unwrapAux a b pos ps) = textOf ps := by
  induction ps with
  | nil => intro pos; simp [unwrapAux]
  | cons n r ih =>
    intro pos
    cases n with
    | str s => simp [unwrapAux, ih, Inline.text]
    | lnk u cs =>
      have hsum : cs.flatten.length = (cs.map List.length).sum :=
        List.length_flatten cs
      cases hc : spanHits a b pos cs.flatten.length with
      | true =>
        have hc' : spanHits a b pos (cs.map List.length).sum = true :=
          hsum ▸ hc
        simp [unwrapAux, hc, hc', ih, Inline.text]
      | false =>
        have hc' : spanHits a b pos (cs.map List.length).sum = false :=
          hsum ▸ hc
        simp [unwrapAux, hc, hc', ih, Inline.text]

theorem unwrapAux_noOverlap (a b : Nat) (ps : List Inline) :
    ∀ pos, overlapLinksAux a b pos (unwrapAux a b pos ps) = [] := by
  induction ps with
  | nil => intro pos; simp [unwrapAux, overlapLinksAux]
  | cons n r ih =>
    intro pos
    cases n with
    | str s => simp [unwrapAux, overlapLinksAux, ih]
    | lnk u cs =>
      cases hc : spanHits a b pos cs.flatten.length with
      | true =>
        simp only [unwrapAux, hc, if_true]
        rw [overlapLinksAux_append]
        simp [overlapLinksAux_strs, ih]
      | false =>
        simp only [unwrapAux, hc, Bool.false_eq_true, if_false]
        rw [List.singleton_append, overlapLinksAux, hc]
        simp [ih]

theorem overlapLinksAux_shift (a b : Nat) (ps : List Inline) :
    ∀ pos pos', pos ≤ pos' → a ≤ pos →
      overlapLinksAux a b pos ps = [] → overlapLinksAux a b pos' ps = [] := by
  induction ps with
  | nil => intro pos pos' _ _ _; simp [overlapLinksAux]
  | cons n r ih =>
    intro pos pos' hle ha h
    cases n with
    | str s =>
      rw [overlapLinksAux] at h ⊢
      exact ih (pos + s.length) (pos' + s.length) (by omega) (by omega) h
    | lnk u cs =>
      rw [overlapLinksAux] at h ⊢
      obtain ⟨hif, hrest⟩ := List.append_eq_nil.mp h
      have hfalse : spanHits a b pos cs.flatten.length = false := by
        cases hc : spanHits a b pos cs.flatten.length with
        | true => rw [hc] at hif; exact absurd hif (by simp)
        | false => rfl
      have hcase := (spanHits_eq_false a b pos cs.flatten.length).mp hfalse
      have hfalse' : spanHits a b pos' cs.flatten.length = false := by
        rw [spanHits_eq_false]
        omega
      rw [hfalse']
      simp only [Bool.false_eq_true, if_false, List.nil_append]
      exact ih (pos + cs.flatten.length) (pos' + cs.flatten.length)
        (by omega) (by omega) hrest

end Links

namespace Links

theorem splitInl_noOverlap (a b : Nat) (ps : List Inline) :
    ∀ k pos, overlapLinksAux a b pos ps = [] →
      overlapLinksAux a b pos ((splitInl k ps).1 ++ (splitInl k ps).2) = [] := by
  induction ps with
  | nil => intro k pos h; simp [splitInl, overlapLinksAux]
  | cons n r ih =>
    intro k pos h
    by_cases h0 : k = 0
    · have hsp : splitInl k (n :: r) = ([], n :: r) := by simp [splitInl, h0]
      rw [hsp]
      simpa using h
    by_cases h1 : k < n.text.length
    · cases n with
      | str s =>
        have h1' : k < s.length := by simpa [Inline.text] using h1
        have hsp : splitInl k (Inline.str s :: r)
            = ([.str (s.take k)], .str (s.drop k) :: r) := by
          simp [splitInl, h0, h1', Inline.text]
        rw [hsp]
        rw [overlapLinksAux] at h
        rw [List.singleton_append, overlapLinksAux, overlapLinksAux]
        have harith : pos + (s.take k).length + (s.drop k).length
            = pos + s.length := by
          rw [List.length_take, List.length_drop]
          omega
        rw [harith]
        exact h
      | lnk u cs =>
        have h1' : k < cs.flatten.length := by simpa [Inline.text] using h1
        have hsum : cs.flatten.length = (cs.map List.length).sum :=
          List.length_flatten cs
        have h1'' : k < (cs.map List.length).sum := hsum ▸ h1'
        have hsp : splitInl k (Inline.lnk u cs :: r)
            = ([.lnk u (splitTxts k cs).1], .lnk u (splitTxts k cs).2 :: r) := by
          simp [splitInl, h0, Inline.text, h1'']
        rw [hsp]
        rw [overlapLinksAux] at h
        obtain ⟨hif, hrest⟩ := List.append_eq_nil.mp h
        have hfalse : spanHits a b pos cs.flatten.length = false := by
          cases hc : spanHits a b pos cs.flatten.length with
          | true => rw [hc] at hif; exact absurd hif (by simp)
          | false => rfl
        have hdis := (spanHits_eq_false a b pos cs.flatten.length).mp hfalse
        have hlen1 : (splitTxts k cs).1.flatten.length = k := by
          rw [(splitTxts_flatten cs k).1, List.length_take]
          omega
        have hlen2 : (splitTxts k cs).2.flatten.length = cs.flatten.length - k := by
          rw [(splitTxts_flatten cs k).2, List.length_drop]
        rw [List.singleton_append, overlapLinksAux]
        have hf1 : spanHits a b pos (splitTxts k cs).1.flatten.length = false := by
          rw [hlen1, spanHits_eq_false]
          omega
        rw [hf1, hlen1]
        simp only [Bool.false_eq_true, if_false, List.nil_append]
        rw [overlapLinksAux]
        have hf2 : spanHits a b (pos + k) (splitTxts k cs).2.flatten.length
            = false := by
          rw [hlen2, spanHits_eq_false]
          omega
        rw [hf2, hlen2]
        simp only [Bool.false_eq_true, if_false, List.nil_append]
        have harith : pos + k + (cs.flatten.length - k)
            = pos + cs.flatten.length := by omega
        rw [harith]
        exact hrest
    by_cases h2 : k = n.text.length
    · have hne : n.text ≠ [] := by
        intro hh
        rw [hh] at h2
        simp at h2
        exact h0 h2
      have hsp : splitInl k (n :: r) = ([n], r) := by
        simp [splitInl, h0, h1, h2, hne]
      rw [hsp, List.singleton_append]
      exact h
    · have hsp : splitInl k (n :: r)
          = (n :: (splitInl (k - n.text.length) r).1,
             (splitInl (k - n.text.length) r).2) := by
        simp [splitInl, h0, h1, h2]
      rw [hsp, List.cons_append]
      cases n with
      | str s =>
        rw [overlapLinksAux] at h ⊢
        exact ih (k - (Inline.str s).text.length) (pos + s.length) h
      | lnk u cs =>
        rw [overlapLinksAux] at h ⊢
        obtain ⟨hif, hrest⟩ := List.append_eq_nil.mp h
        refine List.append_eq_nil.mpr ⟨hif, ?_⟩
        exact ih (k - (Inline.lnk u cs).text.length) (pos + cs.flatten.length) hrest

end Links

namespace Links

/-- Translation of isLinkActive (codex.js lines 220-223): a link node
matched by Editor.nodes at the selection exists; Editor.nodes yields
nothing when there is no selection. -/
def isLinkActive (e : LState) : Bool :=
  match e.selection with
  | none => false
  | some (x, y) => !(overlapLinks (min x y) (max x y) e.para).isEmpty

/-- Translation of unwrapLink (codex.js lines 225-227): unwrap every
link node at the selection; a no-op with no selection. -/
def unwrapLink (e : LState) : LState :=
  match e.selection with
  | none => e
  | some (x, y) =>
    { e with para := unwrapAux (min x y) (max x y) 0 e.para }

/-- Modelled from the spec: Transforms.collapse with edge end (codex.js
line 246): the selection becomes the single point at its end edge. -/
def collapseEnd (e : LState) : LState :=
  match e.selection with
  | none => e
  | some (x, y) => { e with selection := some (max x y, max x y) }

/-- Modelled from the spec: Transforms.wrapNodes of a link element with
split (codex.js line 245): the paragraph is split at the selection
start and end and the nodes between the split points become the text
children of one new link element. -/
def wrapRange (e : LState) (s t : Nat) (url : Txt) : LState :=
  { e with para :=
      (splitInl s e.para).1
        ++ [.lnk url ((splitInl (t - s) (splitInl s e.para).2).1.map Inline.text)]
        ++ (splitInl (t - s) (splitInl s e.para).2).2 }

/-- Modelled from the spec: Transforms.insertNodes of a link element
with one text child holding the url, at a collapsed selection (codex.js
line 243); the selection moves past the inserted node. -/
def insertLinkNode (e : LState) (x : Nat) (url : Txt) : LState :=
  { para := (splitInl x e.para).1 ++ [.lnk url [url]] ++ (splitInl x e.para).2,
    selection := some (x + url.length, x + url.length) }

/-- The body of wrapLink after the initial unwrap, reading the current
selection: insert at a collapsed selection, otherwise wrap with split
and collapse to the end edge; with no selection the wrap and collapse
primitives are no-ops. -/
def wrapLinkCore (e : LState) (url : Txt) : LState :=
  match e.selection with
  | none => e
  | some (x, y) =>
    if x = y then insertLinkNode e x url
    else collapseEnd (wrapRange e (min x y) (max x y) url)

/-- Translation of wrapLink (codex.js lines 229-248): unwrap any active
link first, then insert or wrap according to the selection. -/
def wrapLink (e : LState) (url : Txt) : LState :=
  wrapLinkCore (if isLinkActive e then unwrapLink e else e) url

/-- Translation of insertLink (codex.js lines 214-218). -/
def insertLink (e : LState) (url : Txt) : LState :=
  if e.selection.isSome then wrapLink e url else e

/-- Translation of withLinks.insertText (codex.js lines 193-199). -/
def linksInsertText (innerInsert : LState → Txt → LState)
    (e : LState) (text : Txt) : LState :=
  if !text.isEmpty && isUrl text then wrapLink e text else innerInsert e text

end Links

namespace Links

theorem insertLinkNode_para_spec (p : List Inline) (xx : Nat) (url : Txt)
    (hov : overlapLinksAux xx xx 0 p = [])
    (hval : xx ≤ (textOf p).length) :
    overlapLinks xx xx
        ((splitInl xx p).1 ++ [.lnk url [url]] ++ (splitInl xx p).2) = [url]
    ∧ textOf (splitInl xx p).1 = (textOf p).take xx
    ∧ textOf (splitInl xx p).2 = (textOf p).drop xx := by
  obtain ⟨hl, hr⟩ := splitInl_textOf p xx
  have hsp := splitInl_noOverlap xx xx p xx 0 hov
  set L := (splitInl xx p).1 with hLdef
  set R := (splitInl xx p).2 with hRdef
  have hllen : (textOf L).length = xx := by
    rw [hl, List.length_take]
    omega
  rw [overlapLinksAux_append] at hsp
  obtain ⟨hAl, hAr⟩ := List.append_eq_nil.mp hsp
  rw [Nat.zero_add, hllen] at hAr
  refine ⟨?_, hl, hr⟩
  rw [overlapLinks, List.append_assoc, overlapLinksAux_append]
  rw [hAl, List.nil_append, Nat.zero_add, hllen]
  rw [overlapLinksAux_append]
  have hnew : overlapLinksAux xx xx xx [Inline.lnk url [url]] = [url] := by
    rw [overlapLinksAux, overlapLinksAux]
    have hsh : spanHits xx xx xx ([url] : List Txt).flatten.length = true := by
      simp [spanHits]
    rw [hsh]
    simp
  rw [hnew]
  have hnlen : (textOf [Inline.lnk url [url]]).length = url.length := by
    simp [textOf, Inline.text]
  rw [hnlen]
  have hshift := overlapLinksAux_shift xx xx R xx (xx + url.length)
    (by omega) (le_refl xx) hAr
  rw [hshift]
  simp

theorem wrapRange_para_spec (p : List Inline) (s t : Nat) (url : Txt)
    (hov : overlapLinksAux s t 0 p = [])
    (hst : s ≤ t) (hval : t ≤ (textOf p).length) :
    overlapLinks s t
      ((splitInl s p).1
        ++ [.lnk url ((splitInl (t - s) (splitInl s p).2).1.map Inline.text)]
        ++ (splitInl (t - s) (splitInl s p).2).2) = [url]
    ∧ textOf ((splitInl s p).1
        ++ [.lnk url ((splitInl (t - s) (splitInl s p).2).1.map Inline.text)]
        ++ (splitInl (t - s) (splitInl s p).2).2) = textOf p
    ∧ textOf (splitInl s p).1 = (textOf p).take s
    ∧ ((splitInl (t - s) (splitInl s p).2).1.map Inline.text).flatten
        = ((textOf p).drop s).take (t - s)
    ∧ textOf (splitInl (t - s) (splitInl s p).2).2 = (textOf p).drop t := by
  obtain ⟨hl1, hm1⟩ := splitInl_textOf p s
  obtain ⟨hm2, hr2⟩ := splitInl_textOf (splitInl s p).2 (t - s)
  have hsp1 := splitInl_noOverlap s t p s 0 hov
  set L1 := (splitInl s p).1 with hL1def
  set M1 := (splitInl s p).2 with hM1def
  set M := (splitInl (t - s) M1).1 with hMdef
  set R := (splitInl (t - s) M1).2 with hRdef
  have hTlen1 : (textOf L1).length = s := by
    rw [hl1, List.length_take]
    omega
  have hmlen : (textOf M).length = t - s := by
    rw [hm2, List.length_take, hm1, List.length_drop]
    omega
  have hm2' : textOf M = ((textOf p).drop s).take (t - s) := by rw [hm2, hm1]
  have hr2' : textOf R = (textOf p).drop t := by
    rw [hr2, hm1, List.drop_drop]
    congr 1
    omega
  rw [overlapLinksAux_append] at hsp1
  obtain ⟨hAl1, hAm1⟩ := List.append_eq_nil.mp hsp1
  rw [Nat.zero_add, hTlen1] at hAm1
  have hsp2 := splitInl_noOverlap s t M1 (t - s) s hAm1
  rw [overlapLinksAux_append] at hsp2
  obtain ⟨hAm, hAr⟩ := List.append_eq_nil.mp hsp2
  rw [hmlen] at hAr
  have harith : s + (t - s) = t := by omega
  rw [harith] at hAr
  have hnewtext : textOf [Inline.lnk url (M.map Inline.text)] = textOf M := by
    simp [textOf, Inline.text]
  refine ⟨?_, ?_, hl1, hm2', hr2'⟩
  · rw [overlapLinks, List.append_assoc, overlapLinksAux_append]
    rw [hAl1, List.nil_append, Nat.zero_add, hTlen1]
    rw [overlapLinksAux_append]
    have hnew : overlapLinksAux s t s [Inline.lnk url (M.map Inline.text)]
        = [url] := by
      rw [overlapLinksAux, overlapLinksAux]
      have hflat : (M.map Inline.text).flatten.length = t - s := hmlen
      rw [hflat]
      have hsh : spanHits s t s (t - s) = true := by
        simp [spanHits]
        omega
      rw [hsh]
      simp
    rw [hnew]
    have hlen2 : (textOf [Inline.lnk url (M.map Inline.text)]).length = t - s := by
      rw [hnewtext, hmlen]
    rw [hlen2, harith, hAr]
    simp
  · rw [textOf_append, textOf_append, hnewtext, hl1, hm2', hr2']
    have hjoin : ((textOf p).drop s).take (t - s) ++ (textOf p).drop t
        = (textOf p).drop s := by
      conv_rhs => rw [← List.take_append_drop (t - s) ((textOf p).drop s)]
      congr 1
      rw [List.drop_drop]
      congr 1
      omega
    rw [List.append_assoc, hjoin, List.take_append_drop]

end Links

namespace Links

theorem wrapLinkCore_spec (p : List Inline) (url : Txt) (x y : Nat)
    (hov : overlapLinksAux (min x y) (max x y) 0 p = [])
    (hval : max x y ≤ (textOf p).length) :
    overlapLinks (min x y) (max x y)
        (wrapLinkCore ⟨p, some (x, y)⟩ url).para = [url]
    ∧ (x ≠ y →
        (wrapLinkCore ⟨p, some (x, y)⟩ url).selection = some (max x y, max x y)
        ∧ textOf (wrapLinkCore ⟨p, some (x, y)⟩ url).para = textOf p
        ∧ ∃ l m r, (wrapLinkCore ⟨p, some (x, y)⟩ url).para
              = l ++ [.lnk url m] ++ r
            ∧ textOf l = (textOf p).take (min x y)
            ∧ m.flatten = ((textOf p).drop (min x y)).take (max x y - min x y)
            ∧ textOf r = (textOf p).drop (max x y))
    ∧ (x = y →
        ∃ l r, (wrapLinkCore ⟨p, some (x, y)⟩ url).para
              = l ++ [.lnk url [url]] ++ r
            ∧ textOf l = (textOf p).take x
            ∧ textOf r = (textOf p).drop x) := by
  by_cases hxy : x = y
  · subst hxy
    simp only [Nat.min_self, Nat.max_self] at hov hval ⊢
    have hcore : wrapLinkCore ⟨p, some (x, x)⟩ url
        = insertLinkNode ⟨p, some (x, x)⟩ x url := by
      simp [wrapLinkCore]
    rw [hcore]
    obtain ⟨hmain, hl, hr⟩ := insertLinkNode_para_spec p x url hov hval
    exact ⟨hmain, fun hne => absurd rfl hne,
      fun _ => ⟨(splitInl x p).1, (splitInl x p).2, rfl, hl, hr⟩⟩
  · have hcore : wrapLinkCore ⟨p, some (x, y)⟩ url
        = collapseEnd (wrapRange ⟨p, some (x, y)⟩ (min x y) (max x y) url) := by
      simp [wrapLinkCore, hxy]
    rw [hcore]
    have hst : min x y ≤ max x y := by omega
    obtain ⟨hmain, htext, hl, hm, hr⟩ :=
      wrapRange_para_spec p (min x y) (max x y) url hov hst hval
    have hstate : collapseEnd (wrapRange ⟨p, some (x, y)⟩ (min x y) (max x y) url)
        = ⟨(splitInl (min x y) p).1
            ++ [.lnk url ((splitInl (max x y - min x y)
                  (splitInl (min x y) p).2).1.map Inline.text)]
            ++ (splitInl (max x y - min x y) (splitInl (min x y) p).2).2,
           some (max x y, max x y)⟩ := by
      simp [wrapRange, collapseEnd]
    rw [hstate]
    exact ⟨hmain,
      fun _ => ⟨rfl, htext,
        ⟨(splitInl (min x y) p).1,
         (splitInl (max x y - min x y) (splitInl (min x y) p).2).1.map Inline.text,
         (splitInl (max x y - min x y) (splitInl (min x y) p).2).2,
         rfl, hl, hm, hr⟩⟩,
      fun heq => absurd heq hxy⟩

/-- C5: for every state with a selection inside the text, wrapLink
leaves exactly one link wrapping the selection span, the new one with
the given url (any pre-existing link wrapping the selection is removed
first); for a non-collapsed selection it wraps the selected content in
a single new link element with split (text preserved, the wrapped
children carrying exactly the selected text) and collapses the
selection to its end edge; for a collapsed selection it inserts a fresh
link element with the url as its single text child instead of
wrapping. -/
theorem wrapLink_correct (e : LState) (url : Txt) (x y : Nat)
    (hsel : e.selection = some (x, y))
    (hval : max x y ≤ (textOf e.para).length) :
    overlapLinks (min x y) (max x y) (wrapLink e url).para = [url]
    ∧ (x ≠ y →
        (wrapLink e url).selection = some (max x y, max x y)
        ∧ textOf (wrapLink e url).para = textOf e.para
        ∧ ∃ l m r, (wrapLink e url).para = l ++ [.lnk url m] ++ r
            ∧ textOf l = (textOf e.para).take (min x y)
            ∧ m.flatten
                = ((textOf e.para).drop (min x y)).take (max x y - min x y)
            ∧ textOf r = (textOf e.para).drop (max x y))
    ∧ (x = y →
        ∃ l r, (wrapLink e url).para = l ++ [.lnk url [url]] ++ r
            ∧ textOf l = (textOf e.para).take x
            ∧ textOf r = (textOf e.para).drop x) := by
  obtain ⟨p, sel⟩ := e
  have hsel' : sel = some (x, y) := hsel
  subst hsel'
  cases hA : isLinkActive ⟨p, some (x, y)⟩ with
  | false =>
    have hwl : wrapLink ⟨p, some (x, y)⟩ url
        = wrapLinkCore ⟨p, some (x, y)⟩ url := by
      simp only [wrapLink, hA, Bool.false_eq_true, if_false]
    have hov : overlapLinksAux (min x y) (max x y) 0 p = [] := by
      simp [isLinkActive] at hA
      rwa [overlapLinks] at hA
    rw [hwl]
    exact wrapLinkCore_spec p url x y hov hval
  | true =>
    have hwl : wrapLink ⟨p, some (x, y)⟩ url
        = wrapLinkCore (unwrapLink ⟨p, some (x, y)⟩) url := by
      simp only [wrapLink, hA, if_true]
    have hunw : unwrapLink ⟨p, some (x, y)⟩
        = ⟨unwrapAux (min x y) (max x y) 0 p, some (x, y)⟩ := by
      simp [unwrapLink]
    have hov : overlapLinksAux (min x y) (max x y) 0
        (unwrapAux (min x y) (max x y) 0 p) = [] :=
      unwrapAux_noOverlap (min x y) (max x y) p 0
    have htx : textOf (unwrapAux (min x y) (max x y) 0 p) = textOf p :=
      unwrapAux_textOf (min x y) (max x y) p 0
    have hval' : max x y
        ≤ (textOf (unwrapAux (min x y) (max x y) 0 p)).length := by
      rw [htx]
      exact hval
    have hspec := wrapLinkCore_spec (unwrapAux (min x y) (max x y) 0 p)
      url x y hov hval'
    rw [htx] at hspec
    rw [hwl, hunw]
    exact hspec

end Links

namespace Links

/-- A paragraph holding the text abcd with characters b and c selected. -/
def wrapDemo : LState :=
  { para := [.str ("abcd".toList)], selection := some (1, 3) }

/-- The demo url. -/
def wrapUrl : Txt := "https://e.co".toList

/-- C5 witness: on the demo state the hypotheses hold and wrapLink
satisfies the theorem's conclusions. -/
theorem wrapLink_correct_witness :
    wrapDemo.selection = some (1, 3)
    ∧ max 1 3 ≤ (textOf wrapDemo.para).length
    ∧ (overlapLinks (min 1 3) (max 1 3) (wrapLink wrapDemo wrapUrl).para
          = [wrapUrl]
       ∧ (1 ≠ 3 →
           (wrapLink wrapDemo wrapUrl).selection = some (max 1 3, max 1 3)
           ∧ textOf (wrapLink wrapDemo wrapUrl).para = textOf wrapDemo.para
           ∧ ∃ l m r, (wrapLink wrapDemo wrapUrl).para
                 = l ++ [.lnk wrapUrl m] ++ r
               ∧ textOf l = (textOf wrapDemo.para).take (min 1 3)
               ∧ m.flatten
                   = ((textOf wrapDemo.para).drop (min 1 3)).take
                       (max 1 3 - min 1 3)
               ∧ textOf r = (textOf wrapDemo.para).drop (max 1 3))
       ∧ (1 = 3 →
           ∃ l r, (wrapLink wrapDemo wrapUrl).para
                 = l ++ [.lnk wrapUrl [wrapUrl]] ++ r
               ∧ textOf l = (textOf wrapDemo.para).take 1
               ∧ textOf r = (textOf wrapDemo.para).drop 1)) :=
  ⟨rfl, by decide, wrapLink_correct wrapDemo wrapUrl 1 3 rfl (by decide)⟩

/-- An empty paragraph with the caret collapsed at its start. -/
def emptyParagraph : LState := { para := [.str []], selection := some (0, 0) }

/-- The url text of the insertText scenario. -/
def exampleUrl : Txt := "https://example.com".toList

/-- C6: inserting the plain text https://example.com into the empty
paragraph with a collapsed selection produces a link element whose url
is that text and whose single text child is that same text, for any
captured default insertText. -/
theorem insertText_url_scenario (innerInsert : LState → Txt → LState) :
    (linksInsertText innerInsert emptyParagraph exampleUrl).para
      = [.lnk exampleUrl [exampleUrl], .str []] := by
  have hc : (!(exampleUrl : Txt).isEmpty && isUrl exampleUrl) = true := by decide
  rw [linksInsertText, hc]
  simp only [if_true]
  decide

/-- A state with no selection. -/
def noSelState : LState := { para := [.str ("a".toList)], selection := none }

/-- C8: insertLink with no selection is a no-op: the whole editor state,
document included, is returned unchanged, so no link element is
created. -/
theorem insertLink_no_selection (e : LState) (url : Txt)
    (h : e.selection = none) :
    insertLink e url = e := by
  simp [insertLink, h]

/-- C8 witness: on a concrete selection-free state insertLink returns
the state unchanged. -/
theorem insertLink_no_selection_witness :
    noSelState.selection = none
    ∧ insertLink noSelState ("https://x.co".toList) = noSelState :=
  ⟨rfl, insertLink_no_selection noSelState ("https://x.co".toList) rfl⟩

end Links
